import Mathlib

/-!
Shallow embedding of the demo-tx-system repository (src/src/transaction.rs,
src/src/account.rs, src/src/main.rs).

Modelling choices:
* `rust_decimal::Decimal` arithmetic is value-exact for in-range operands, and
  equality (`PartialEq`) compares numeric values; the account arithmetic is
  therefore modelled over `Rat`.  The one place where the stored representation
  of a `Decimal` is observed rather than its value is `Decimal::scale()` inside
  `Transaction::valid_tx_data`; for that function the amount is modelled as a
  mantissa/scale pair (`Dec` below), exactly the data `Decimal` stores.
* `u16`/`u32` identifiers are modelled as `Nat` (no arithmetic is ever done on
  them, they are only compared for equality).
* The mutable reference `Option<&mut Transaction>` handed to `apply_tx` is
  modelled by returning the possibly-updated referenced transaction alongside
  the account: `Account → Transaction → Option Transaction → Account × Option Transaction`.
* The two `HashMap`s of the driver (`ledger`, `tx_history`) are modelled as
  association lists; the driver never depends on iteration order in any way a
  claim observes (output ordering is explicitly unspecified).
-/

/-- `TransactionType` of transaction.rs (textually duplicated in main.rs). -/
inductive TransactionType where
  | Chargeback
  | Deposit
  | Dispute
  | Resolve
  | Withdrawal
deriving DecidableEq, Repr

/-- `TransactionState` of transaction.rs (textually duplicated in main.rs);
`Default` is `Open`. -/
inductive TransactionState where
  | Open
  | ActiveDispute
  | ChargedBack
deriving DecidableEq, Repr

/-- The data a `rust_decimal::Decimal` stores: an integer mantissa together
with a scale (number of digits after the decimal point).  Used to model
`Transaction::valid_tx_data`, which observes `scale()` and `is_sign_negative()`. -/
structure Dec where
  mantissa : Int
  scale : Nat
deriving DecidableEq, Repr

/-- Numeric value of a stored decimal. -/
def Dec.toRat (d : Dec) : Rat :=
  (d.mantissa : Rat) / ((10 : Rat) ^ d.scale)

/-- `Decimal::is_sign_negative` (for values produced by parsing a numeric
literal: negative exactly when the value is below zero). -/
def Dec.is_sign_negative (d : Dec) : Bool :=
  d.mantissa < 0

/-- `const DECIMAL_PRECISION: u32 = 4` of transaction.rs. -/
def DECIMAL_PRECISION : Nat := 4

/-- The `Transaction` struct (shared shape of transaction.rs and of the
private copy in main.rs); the amount is modelled by its numeric value.
`state` carries `#[serde(skip)]`, so every parsed record has `state = Open`. -/
structure Transaction where
  _type : TransactionType
  client : Nat
  tx : Nat
  amount : Option Rat
  state : TransactionState
deriving DecidableEq, Repr

/-- The `Transaction` struct of transaction.rs with the amount kept as the
mantissa/scale data of the decimal, as needed by `valid_tx_data`. -/
structure TransactionD where
  _type : TransactionType
  client : Nat
  tx : Nat
  amount : Option Dec
  state : TransactionState
deriving DecidableEq, Repr

/-- `Transaction::valid_tx_data` of transaction.rs: the amount
(`unwrap_or_default`, default `Decimal::ZERO` with scale 0) must not be
negative and its scale must not exceed `DECIMAL_PRECISION`. -/
def TransactionD.valid_tx_data (t : TransactionD) : Bool :=
  let amount := t.amount.getD ⟨0, 0⟩
  !amount.is_sign_negative && amount.scale ≤ DECIMAL_PRECISION

/-- `Transaction::requires_unique_tx` (identical in transaction.rs and main.rs). -/
def Transaction.requires_unique_tx (t : Transaction) : Bool :=
  match t._type with
  | TransactionType.Withdrawal | TransactionType.Deposit => true
  | TransactionType.Dispute | TransactionType.Resolve | TransactionType.Chargeback => false

/-- `Transaction::requires_history` (identical in transaction.rs and main.rs). -/
def Transaction.requires_history (t : Transaction) : Bool :=
  match t._type with
  | TransactionType.Deposit => true
  | TransactionType.Withdrawal | TransactionType.Dispute
  | TransactionType.Resolve | TransactionType.Chargeback => false

/-- The `Account` struct (account.rs; duplicated in main.rs), decimals by value. -/
structure Account where
  client : Nat
  available : Rat
  held : Rat
  total : Rat
  locked : Bool
deriving DecidableEq, Repr

/-- `Account::new` / the `..Default::default()` account: zero balances, unlocked. -/
def Account.new (c : Nat) : Account :=
  ⟨c, 0, 0, 0, false⟩

/-- `Account::is_locked_tx` (identical in account.rs and main.rs): true exactly
for Deposit/Withdrawal on a locked account. -/
def Account.is_locked_tx (a : Account) (t : Transaction) : Bool :=
  match t._type with
  | TransactionType.Deposit | TransactionType.Withdrawal => a.locked
  | TransactionType.Dispute | TransactionType.Chargeback | TransactionType.Resolve => false

/-- The match body of `Account::apply_tx` in account.rs (everything after the
`is_locked_tx` early return), discriminating on
`(tx._type, referenced_tx.as_ref().map [period] _type)` exactly as the source does. -/
def Account.applyBody (a : Account) (t : Transaction) (ref : Option Transaction) :
    Account × Option Transaction :=
  match t._type, ref.map (fun r => r._type) with
  | TransactionType.Deposit, _ =>
      let amount := t.amount.getD 0
      ({ a with available := a.available + amount, total := a.total + amount }, ref)
  | TransactionType.Withdrawal, _ =>
      let amount := t.amount.getD 0
      if a.available ≥ amount then
        ({ a with available := a.available - amount, total := a.total - amount }, ref)
      else
        (a, ref)
  | TransactionType.Dispute, some TransactionType.Deposit =>
      match ref with
      | some rtx =>
          match rtx.state with
          | TransactionState.Open =>
              let amount := rtx.amount.getD 0
              if amount > 0 then
                ({ a with available := a.available - amount, held := a.held + amount },
                 some { rtx with state := TransactionState.ActiveDispute })
              else
                (a, ref)
          | TransactionState.ActiveDispute | TransactionState.ChargedBack => (a, ref)
      | none => (a, ref)
  | TransactionType.Resolve, some TransactionType.Deposit =>
      match ref with
      | some rtx =>
          match rtx.state with
          | TransactionState.ActiveDispute =>
              let amount := rtx.amount.getD 0
              if amount > 0 then
                ({ a with available := a.available + amount, held := a.held - amount },
                 some { rtx with state := TransactionState.Open })
              else
                (a, ref)
          | TransactionState.Open | TransactionState.ChargedBack => (a, ref)
      | none => (a, ref)
  | TransactionType.Chargeback, some TransactionType.Deposit =>
      match ref with
      | some rtx =>
          match rtx.state with
          | TransactionState.ActiveDispute =>
              let amount := rtx.amount.getD 0
              if amount > 0 then
                ({ a with total := a.total - amount, held := a.held - amount, locked := true },
                 some { rtx with state := TransactionState.ChargedBack })
              else
                (a, ref)
          | TransactionState.Open | TransactionState.ChargedBack => (a, ref)
      | none => (a, ref)
  | TransactionType.Chargeback, _ => (a, ref)
  | TransactionType.Dispute, _ => (a, ref)
  | TransactionType.Resolve, _ => (a, ref)

/-- `Account::apply_tx` of account.rs: early return on `is_locked_tx`, then the
match body. -/
def Account.apply_tx (a : Account) (t : Transaction) (ref : Option Transaction) :
    Account × Option Transaction :=
  if a.is_locked_tx t then (a, ref) else a.applyBody t ref

/-- The match body of the private `Account::apply_tx` duplicated in main.rs:
it matches on `tx._type` first, with nested matches on the referenced
transaction, its type and its state. -/
def Account.applyBodyMain (a : Account) (t : Transaction) (ref : Option Transaction) :
    Account × Option Transaction :=
  match t._type with
  | TransactionType.Deposit =>
      let amount := t.amount.getD 0
      ({ a with available := a.available + amount, total := a.total + amount }, ref)
  | TransactionType.Withdrawal =>
      let amount := t.amount.getD 0
      if a.available ≥ amount then
        ({ a with available := a.available - amount, total := a.total - amount }, ref)
      else
        (a, ref)
  | TransactionType.Dispute =>
      match ref with
      | some rtx =>
          match rtx._type with
          | TransactionType.Deposit =>
              match rtx.state with
              | TransactionState.Open =>
                  let amount := rtx.amount.getD 0
                  if amount > 0 then
                    ({ a with available := a.available - amount, held := a.held + amount },
                     some { rtx with state := TransactionState.ActiveDispute })
                  else
                    (a, some rtx)
              | TransactionState.ActiveDispute | TransactionState.ChargedBack => (a, some rtx)
          | _ => (a, some rtx)
      | none => (a, none)
  | TransactionType.Resolve =>
      match ref with
      | some rtx =>
          match rtx._type with
          | TransactionType.Deposit =>
              match rtx.state with
              | TransactionState.ActiveDispute =>
                  let amount := rtx.amount.getD 0
                  if amount > 0 then
                    ({ a with available := a.available + amount, held := a.held - amount },
                     some { rtx with state := TransactionState.Open })
                  else
                    (a, some rtx)
              | TransactionState.Open | TransactionState.ChargedBack => (a, some rtx)
          | _ => (a, some rtx)
      | none => (a, none)
  | TransactionType.Chargeback =>
      match ref with
      | some rtx =>
          match rtx._type with
          | TransactionType.Deposit =>
              match rtx.state with
              | TransactionState.ActiveDispute =>
                  let amount := rtx.amount.getD 0
                  if amount > 0 then
                    ({ a with total := a.total - amount, held := a.held - amount, locked := true },
                     some { rtx with state := TransactionState.ChargedBack })
                  else
                    (a, some rtx)
              | TransactionState.Open | TransactionState.ChargedBack => (a, some rtx)
          | _ => (a, some rtx)
      | none => (a, none)

/-- The private `Account::apply_tx` of main.rs. -/
def Account.applyTxMain (a : Account) (t : Transaction) (ref : Option Transaction) :
    Account × Option Transaction :=
  if a.is_locked_tx t then (a, ref) else a.applyBodyMain t ref

/-! ### The driver (`run` in main.rs)

`ledger : HashMap<u16, Account>` and `tx_history : HashMap<u32, Transaction>`
are modelled as association lists keyed by the `client` and `tx` fields. -/

/-- `ledger.get(&c)`: the account stored for client `c`. -/
def ledgerLookup (l : List Account) (c : Nat) : Option Account :=
  l.find? (fun a => a.client == c)

/-- In-place update of the entry for client `c` (appends when absent, matching
`HashMap::insert`; the driver only updates clients already present). -/
def ledgerSet (l : List Account) (c : Nat) (a : Account) : List Account :=
  match l with
  | [] => [a]
  | x :: xs => if x.client == c then a :: xs else x :: ledgerSet xs c a

/-- `tx_history.get_mut(&i)`: the retained transaction with identifier `i`. -/
def historyLookup (h : List Transaction) (i : Nat) : Option Transaction :=
  h.find? (fun t => t.tx == i)

/-- `tx_history.contains_key(&i)`. -/
def historyContains (h : List Transaction) (i : Nat) : Bool :=
  (historyLookup h i).isSome

/-- Write-back of the mutation done through `get_mut`: replace the first entry
keyed `i` (appends when absent; the driver only writes back entries it found). -/
def historySet (h : List Transaction) (i : Nat) (t : Transaction) : List Transaction :=
  match h with
  | [] => [t]
  | x :: xs => if x.tx == i then t :: xs else x :: historySet xs i t

/-- Write-back of the `get_mut` mutation into the history: when a referenced
transaction was found and (possibly) mutated, store the mutated version back
under its key; otherwise the history is untouched. -/
def writeBack (hist : List Transaction) (i : Nat) (r r2 : Option Transaction) :
    List Transaction :=
  match r, r2 with
  | some _, some w => historySet hist i w
  | _, _ => hist

/-- The driver state: the two maps owned by `run`. -/
structure RunState where
  ledger : List Account
  history : List Transaction
deriving DecidableEq, Repr

/-- One iteration of the `for record in reader.deserialize()` loop of `run`
(main.rs lines 171-202), for an already-decoded transaction `t`:
skip negative amounts; fail fatally when a unique-required TxId is already in
`tx_history`; create the account on first sight (`entry [period] or_insert`); look up
the referenced transaction; skip cross-client references; otherwise apply the
transaction and, when it `requires_history`, insert it. -/
def runStep (s : RunState) (t : Transaction) : Except String RunState :=
  let amount := t.amount.getD 0
  if amount < 0 then
    Except.ok s
  else if t.requires_unique_tx && historyContains s.history t.tx then
    Except.error "Withdrawal and Deposit TXs must be globally unique!"
  else
    let ledger :=
      match ledgerLookup s.ledger t.client with
      | some _ => s.ledger
      | none => s.ledger ++ [Account.new t.client]
    let account := (ledgerLookup ledger t.client).getD (Account.new t.client)
    let refTx := historyLookup s.history t.tx
    let refTxClient := (refTx.map (fun r => r.client)).getD t.client
    if refTxClient == t.client then
      let res := account.applyTxMain t refTx
      let ledger := ledgerSet ledger t.client res.1
      let history := writeBack s.history t.tx refTx res.2
      let history := if t.requires_history then history ++ [t] else history
      Except.ok ⟨ledger, history⟩
    else
      Except.ok ⟨ledger, s.history⟩

/-- The loop of `run` over the remaining records, from a given state. -/
def runAux (s : RunState) : List Transaction → Except String RunState
  | [] => Except.ok s
  | t :: ts =>
      match runStep s t with
      | Except.ok s1 => runAux s1 ts
      | Except.error e => Except.error e

/-- `run` of main.rs on an already-decoded record stream: fold the loop body
from empty maps.  On `Except.error` the Rust function returns before writing
any output, so a fatal run emits nothing. -/
def run (ts : List Transaction) : Except String RunState :=
  runAux ⟨[], []⟩ ts

/-! ### Derived notions used to state the invariants -/

/-- Contribution of one retained transaction to the held funds of client `c`:
its amount when it belongs to `c` and is currently under active dispute. -/
def contrib (t : Transaction) (c : Nat) : Rat :=
  if t.client = c ∧ t.state = TransactionState.ActiveDispute then t.amount.getD 0 else 0

/-- Sum of the amounts of the retained transactions of client `c` currently in
`ActiveDispute`. -/
def heldSum (h : List Transaction) (c : Nat) : Rat :=
  match h with
  | [] => 0
  | t :: ts => contrib t c + heldSum ts c

/-- The inductive invariant of the driver loop:
clients in the ledger are pairwise distinct; every account satisfies
`total = available + held` and holds exactly the sum of its actively disputed
retained amounts; the history retains only deposits, actively disputed entries
have positive amounts, and every retained transaction belongs to a client
present in the ledger. -/
def RunInv (s : RunState) : Prop :=
  List.Pairwise (fun p q => p.client ≠ q.client) s.ledger ∧
  (∀ a ∈ s.ledger, a.total = a.available + a.held) ∧
  (∀ a ∈ s.ledger, a.held = heldSum s.history a.client) ∧
  (∀ u ∈ s.history, u._type = TransactionType.Deposit) ∧
  (∀ u ∈ s.history, u.state = TransactionState.ActiveDispute → 0 < u.amount.getD 0) ∧
  (∀ u ∈ s.history, ∃ b ∈ s.ledger, b.client = u.client)

/-! ### Basic lemmas about the state machine -/

/-- The two match bodies (account.rs and main.rs) agree on every input. -/
theorem applyBody_eq_applyBodyMain (a : Account) (t : Transaction) (r : Option Transaction) :
    a.applyBody t r = a.applyBodyMain t r := by
  obtain ⟨ty, tc, ti, ta, ts⟩ := t
  cases r with
  | none => cases ty <;> rfl
  | some rtx =>
      obtain ⟨rty, rc, ri, ra, rs⟩ := rtx
      cases ty <;> cases rty <;> cases rs <;> rfl

/-- The two `apply_tx` implementations agree on every input. -/
theorem apply_tx_eq_applyTxMain (a : Account) (t : Transaction) (r : Option Transaction) :
    a.apply_tx t r = a.applyTxMain t r := by
  unfold Account.apply_tx Account.applyTxMain
  rw [applyBody_eq_applyBodyMain]

/-- `apply_tx` never changes the client field of the account. -/
theorem applyTxMain_client (a : Account) (t : Transaction) (r : Option Transaction) :
    ((a.applyTxMain t r).1).client = a.client := by
  obtain ⟨ty, tc, ti, ta, ts⟩ := t
  cases r with
  | none =>
      cases ty <;>
        simp only [Account.applyTxMain, Account.applyBodyMain, Account.is_locked_tx] <;>
        (repeat' split) <;> rfl
  | some rtx =>
      obtain ⟨rty, rc, ri, ra, rs⟩ := rtx
      cases ty <;> cases rty <;> cases rs <;>
        simp only [Account.applyTxMain, Account.applyBodyMain, Account.is_locked_tx] <;>
        (repeat' split) <;> rfl

/-- `apply_tx` preserves `total = available + held`. -/
theorem applyTxMain_total (a : Account) (t : Transaction) (r : Option Transaction)
    (h : a.total = a.available + a.held) :
    ((a.applyTxMain t r).1).total =
      ((a.applyTxMain t r).1).available + ((a.applyTxMain t r).1).held := by
  obtain ⟨ty, tc, ti, ta, ts⟩ := t
  cases r with
  | none =>
      cases ty <;>
        simp only [Account.applyTxMain, Account.applyBodyMain, Account.is_locked_tx] <;>
        (repeat' split) <;> simp <;> linarith
  | some rtx =>
      obtain ⟨rty, rc, ri, ra, rs⟩ := rtx
      cases ty <;> cases rty <;> cases rs <;>
        simp only [Account.applyTxMain, Account.applyBodyMain, Account.is_locked_tx] <;>
        (repeat' split) <;> simp <;> linarith

/-- `apply_tx` never clears the locked flag. -/
theorem applyTxMain_locked (a : Account) (t : Transaction) (r : Option Transaction)
    (h : a.locked = true) : ((a.applyTxMain t r).1).locked = true := by
  obtain ⟨ty, tc, ti, ta, ts⟩ := t
  cases r with
  | none =>
      cases ty <;>
        simp only [Account.applyTxMain, Account.applyBodyMain, Account.is_locked_tx] <;>
        (repeat' split) <;> simp [h]
  | some rtx =>
      obtain ⟨rty, rc, ri, ra, rs⟩ := rtx
      cases ty <;> cases rty <;> cases rs <;>
        simp only [Account.applyTxMain, Account.applyBodyMain, Account.is_locked_tx] <;>
        (repeat' split) <;> simp [h]

/-- Outcome analysis of `apply_tx`: either it is a complete no-op on the
referenced transaction with the held funds unchanged, or the referenced
transaction is a positive-amount deposit and exactly one of the three
dispute-family effects happened. -/
theorem applyTxMain_held_outcomes (a : Account) (t : Transaction) (r : Option Transaction) :
    ((a.applyTxMain t r).2 = r ∧ ((a.applyTxMain t r).1).held = a.held) ∨
    (∃ rtx, r = some rtx ∧ rtx._type = TransactionType.Deposit ∧ 0 < rtx.amount.getD 0 ∧
      ((rtx.state = TransactionState.Open ∧
        (a.applyTxMain t r).2 = some { rtx with state := TransactionState.ActiveDispute } ∧
        ((a.applyTxMain t r).1).held = a.held + rtx.amount.getD 0) ∨
       (rtx.state = TransactionState.ActiveDispute ∧
        (a.applyTxMain t r).2 = some { rtx with state := TransactionState.Open } ∧
        ((a.applyTxMain t r).1).held = a.held - rtx.amount.getD 0) ∨
       (rtx.state = TransactionState.ActiveDispute ∧
        (a.applyTxMain t r).2 = some { rtx with state := TransactionState.ChargedBack } ∧
        ((a.applyTxMain t r).1).held = a.held - rtx.amount.getD 0))) := by
  obtain ⟨ty, tc, ti, ta, ts⟩ := t
  cases r with
  | none =>
      left
      cases ty <;>
        simp only [Account.applyTxMain, Account.applyBodyMain, Account.is_locked_tx] <;>
        (repeat' split) <;> simp
  | some rtx =>
      obtain ⟨rty, rc, ri, ra, rs⟩ := rtx
      cases ty <;> cases rty <;> cases rs <;>
        simp only [Account.applyTxMain, Account.applyBodyMain, Account.is_locked_tx] <;>
        (repeat' split) <;>
        first
          | (right
             rename_i hpos
             exact ⟨⟨TransactionType.Deposit, rc, ri, ra, TransactionState.Open⟩, rfl, rfl, hpos,
               Or.inl ⟨rfl, rfl, rfl⟩⟩)
          | (right
             rename_i hpos
             refine ⟨⟨TransactionType.Deposit, rc, ri, ra, TransactionState.ActiveDispute⟩,
               rfl, rfl, hpos, ?_⟩
             first
               | exact Or.inr (Or.inl ⟨rfl, rfl, rfl⟩)
               | exact Or.inr (Or.inr ⟨rfl, rfl, rfl⟩))
          | (left; exact ⟨rfl, rfl⟩)

/-! ### Lemmas about the association-list maps of the driver -/

theorem ledgerLookup_mem {l : List Account} {c : Nat} {a : Account}
    (h : ledgerLookup l c = some a) : a ∈ l ∧ a.client = c := by
  refine ⟨List.mem_of_find?_eq_some h, ?_⟩
  have := List.find?_some h
  simpa using this

theorem ledgerLookup_eq_none {l : List Account} {c : Nat}
    (h : ledgerLookup l c = none) : ∀ a ∈ l, a.client ≠ c := by
  intro a ha
  have := (List.find?_eq_none).mp h a ha
  simpa using this

theorem ledgerLookup_append_left {l l2 : List Account} {c : Nat} {a : Account}
    (h : ledgerLookup l c = some a) : ledgerLookup (l ++ l2) c = some a := by
  unfold ledgerLookup at h ⊢
  rw [List.find?_append, h]
  rfl

theorem ledgerLookup_append_right {l l2 : List Account} {c : Nat}
    (h : ledgerLookup l c = none) : ledgerLookup (l ++ l2) c = ledgerLookup l2 c := by
  unfold ledgerLookup at h ⊢
  rw [List.find?_append, h]
  rfl

theorem mem_ledgerSet {l : List Account} {c : Nat} {x b : Account}
    (h : b ∈ ledgerSet l c x) : b = x ∨ b ∈ l := by
  induction l with
  | nil => simpa [ledgerSet] using h
  | cons y ys ih =>
      unfold ledgerSet at h
      by_cases hy : (y.client == c) = true
      · rw [if_pos hy] at h
        rcases List.mem_cons.mp h with h | h
        · exact Or.inl h
        · exact Or.inr (List.mem_cons_of_mem _ h)
      · rw [if_neg hy] at h
        rcases List.mem_cons.mp h with h | h
        · exact Or.inr (h ▸ List.mem_cons_self _ _)
        · rcases ih h with h | h
          · exact Or.inl h
          · exact Or.inr (List.mem_cons_of_mem _ h)

theorem self_mem_ledgerSet (l : List Account) (c : Nat) (x : Account) :
    x ∈ ledgerSet l c x := by
  induction l with
  | nil => simp [ledgerSet]
  | cons y ys ih =>
      unfold ledgerSet
      by_cases hy : (y.client == c) = true
      · rw [if_pos hy]; exact List.mem_cons_self _ _
      · rw [if_neg hy]; exact List.mem_cons_of_mem _ ih

theorem mem_ledgerSet_of_ne {l : List Account} {c : Nat} {x b : Account}
    (hb : b ∈ l) (hne : b.client ≠ c) : b ∈ ledgerSet l c x := by
  induction l with
  | nil => cases hb
  | cons y ys ih =>
      unfold ledgerSet
      by_cases hy : (y.client == c) = true
      · rw [if_pos hy]
        rcases List.mem_cons.mp hb with h | h
        · exact absurd (by rw [h]; simpa using hy) hne
        · exact List.mem_cons_of_mem _ h
      · rw [if_neg hy]
        rcases List.mem_cons.mp hb with h | h
        · exact h ▸ List.mem_cons_self _ _
        · exact List.mem_cons_of_mem _ (ih h)

theorem mem_ledgerSet_strong {l : List Account} {c : Nat} {x b : Account}
    (hp : List.Pairwise (fun p q => p.client ≠ q.client) l)
    (h : b ∈ ledgerSet l c x) : b = x ∨ (b ∈ l ∧ b.client ≠ c) := by
  induction l with
  | nil => simpa [ledgerSet] using h
  | cons y ys ih =>
      rw [List.pairwise_cons] at hp
      unfold ledgerSet at h
      by_cases hy : (y.client == c) = true
      · rw [if_pos hy] at h
        rcases List.mem_cons.mp h with h | h
        · exact Or.inl h
        · refine Or.inr ⟨List.mem_cons_of_mem _ h, ?_⟩
          have hyc : y.client = c := by simpa using hy
          have := hp.1 b h
          exact fun hc => this (hyc.trans hc.symm)
      · rw [if_neg hy] at h
        rcases List.mem_cons.mp h with h | h
        · refine Or.inr ⟨h ▸ List.mem_cons_self _ _, ?_⟩
          rw [h]
          simpa using hy
        · rcases ih hp.2 h with h | h
          · exact Or.inl h
          · exact Or.inr ⟨List.mem_cons_of_mem _ h.1, h.2⟩

theorem ledgerLookup_set_self {l : List Account} {c : Nat} {x : Account}
    (hx : x.client = c) : ledgerLookup (ledgerSet l c x) c = some x := by
  induction l with
  | nil => simp [ledgerSet, ledgerLookup, hx]
  | cons y ys ih =>
      unfold ledgerSet
      by_cases hy : (y.client == c) = true
      · rw [if_pos hy]
        unfold ledgerLookup
        exact List.find?_cons_of_pos _ (by simpa using hx)
      · rw [if_neg hy]
        unfold ledgerLookup
        rw [List.find?_cons_of_neg _ (by simpa using hy)]
        exact ih

theorem pairwise_ledgerSet {l : List Account} {c : Nat} {x : Account}
    (hx : x.client = c)
    (hp : List.Pairwise (fun p q => p.client ≠ q.client) l) :
    List.Pairwise (fun p q => p.client ≠ q.client) (ledgerSet l c x) := by
  induction l with
  | nil => simp [ledgerSet]
  | cons y ys ih =>
      rw [List.pairwise_cons] at hp
      unfold ledgerSet
      by_cases hy : (y.client == c) = true
      · rw [if_pos hy]
        rw [List.pairwise_cons]
        refine ⟨?_, hp.2⟩
        intro b hb
        have hyc : y.client = c := by simpa using hy
        rw [hx, ← hyc]
        exact hp.1 b hb
      · rw [if_neg hy]
        rw [List.pairwise_cons]
        refine ⟨?_, ih hp.2⟩
        intro b hb
        rcases mem_ledgerSet hb with h | h
        · rw [h, hx]
          simpa using hy
        · exact hp.1 b h

theorem historyLookup_mem {h : List Transaction} {i : Nat} {t : Transaction}
    (hf : historyLookup h i = some t) : t ∈ h ∧ t.tx = i := by
  refine ⟨List.mem_of_find?_eq_some hf, ?_⟩
  have := List.find?_some hf
  simpa using this

theorem mem_historySet {h : List Transaction} {i : Nat} {v u : Transaction}
    (hu : u ∈ historySet h i v) : u = v ∨ u ∈ h := by
  induction h with
  | nil => simpa [historySet] using hu
  | cons y ys ih =>
      unfold historySet at hu
      by_cases hy : (y.tx == i) = true
      · rw [if_pos hy] at hu
        rcases List.mem_cons.mp hu with h | h
        · exact Or.inl h
        · exact Or.inr (List.mem_cons_of_mem _ h)
      · rw [if_neg hy] at hu
        rcases List.mem_cons.mp hu with h | h
        · exact Or.inr (h ▸ List.mem_cons_self _ _)
        · rcases ih h with h | h
          · exact Or.inl h
          · exact Or.inr (List.mem_cons_of_mem _ h)

theorem historySet_lookup_self {h : List Transaction} {i : Nat} {t : Transaction}
    (hf : historyLookup h i = some t) : historySet h i t = h := by
  induction h with
  | nil => simp [historyLookup] at hf
  | cons y ys ih =>
      unfold historySet
      by_cases hy : (y.tx == i) = true
      · rw [if_pos hy]
        unfold historyLookup at hf
        rw [List.find?_cons_of_pos _ (by simpa using hy)] at hf
        rw [Option.some_inj.mp hf]
      · rw [if_neg hy]
        unfold historyLookup at hf
        rw [List.find?_cons_of_neg _ (by simpa using hy)] at hf
        rw [ih hf]

theorem heldSum_append (h : List Transaction) (t : Transaction) (c : Nat) :
    heldSum (h ++ [t]) c = heldSum h c + contrib t c := by
  induction h with
  | nil => simp [heldSum]
  | cons y ys ih =>
      have hc : (y :: ys) ++ [t] = y :: (ys ++ [t]) := rfl
      rw [hc]
      simp only [heldSum]
      linarith [ih]

theorem heldSum_set {h : List Transaction} {i : Nat} {t : Transaction} (v : Transaction) (c : Nat)
    (hf : historyLookup h i = some t) :
    heldSum (historySet h i v) c = heldSum h c - contrib t c + contrib v c := by
  induction h with
  | nil => simp [historyLookup] at hf
  | cons y ys ih =>
      unfold historySet
      by_cases hy : (y.tx == i) = true
      · rw [if_pos hy]
        unfold historyLookup at hf
        rw [List.find?_cons_of_pos _ (by simpa using hy)] at hf
        rw [← Option.some_inj.mp hf]
        simp only [heldSum]
        ring
      · rw [if_neg hy]
        unfold historyLookup at hf
        rw [List.find?_cons_of_neg _ (by simpa using hy)] at hf
        simp only [heldSum, ih hf]
        ring

theorem contrib_eq_zero_of_ne {t : Transaction} {c : Nat} (hne : t.client ≠ c) :
    contrib t c = 0 := by
  unfold contrib
  rw [if_neg]
  exact fun hc => hne hc.1

theorem heldSum_eq_zero {h : List Transaction} {c : Nat}
    (hc : ∀ t ∈ h, t.client ≠ c) : heldSum h c = 0 := by
  induction h with
  | nil => rfl
  | cons y ys ih =>
      simp only [heldSum]
      rw [contrib_eq_zero_of_ne (hc y (List.mem_cons_self _ _)),
        ih (fun t ht => hc t (List.mem_cons_of_mem _ ht))]
      ring

theorem contrib_nonneg (c : Nat) {t : Transaction}
    (hpos : t.state = TransactionState.ActiveDispute → 0 < t.amount.getD 0) :
    0 ≤ contrib t c := by
  unfold contrib
  split
  · next hcond => exact le_of_lt (hpos hcond.2)
  · exact le_refl 0

theorem heldSum_nonneg {h : List Transaction} {c : Nat}
    (hpos : ∀ t ∈ h, t.state = TransactionState.ActiveDispute → 0 < t.amount.getD 0) :
    0 ≤ heldSum h c := by
  induction h with
  | nil => exact le_refl 0
  | cons y ys ih =>
      simp only [heldSum]
      have h1 := contrib_nonneg c (hpos y (List.mem_cons_self _ _))
      have h2 := ih (fun t ht => hpos t (List.mem_cons_of_mem _ ht))
      linarith

theorem requires_history_iff (t : Transaction) :
    t.requires_history = true ↔ t._type = TransactionType.Deposit := by
  obtain ⟨ty, tc, ti, ta, ts⟩ := t
  cases ty <;> simp [Transaction.requires_history]

theorem contrib_eq_zero_of_open {t : Transaction} (hopen : t.state = TransactionState.Open)
    (c : Nat) : contrib t c = 0 := by
  unfold contrib
  rw [if_neg]
  rintro ⟨-, hst⟩
  rw [hopen] at hst
  cases hst

/-- Invariant preservation, apply branch, when `apply_tx` did not touch the
referenced transaction and left the held funds unchanged. -/
theorem runStep_inv_noop
    (s : RunState) (t : Transaction) (L1 : List Account) (res1 : Account)
    (hopen : t.state = TransactionState.Open)
    (htotS : ∀ a ∈ s.ledger, a.total = a.available + a.held)
    (hheldS : ∀ a ∈ s.ledger, a.held = heldSum s.history a.client)
    (hdepS : ∀ u ∈ s.history, u._type = TransactionType.Deposit)
    (hposS : ∀ u ∈ s.history, u.state = TransactionState.ActiveDispute → 0 < u.amount.getD 0)
    (hcliS : ∀ u ∈ s.history, ∃ b ∈ s.ledger, b.client = u.client)
    (hpw1 : List.Pairwise (fun p q => p.client ≠ q.client) L1)
    (hmem1 : ∀ b ∈ L1, b ∈ s.ledger ∨ b = Account.new t.client)
    (hsub1 : ∀ b ∈ s.ledger, b ∈ L1)
    (hresc : res1.client = t.client)
    (hrest : res1.total = res1.available + res1.held)
    (hresh : res1.held = heldSum s.history t.client) :
    RunInv ⟨ledgerSet L1 t.client res1,
      if t.requires_history then s.history ++ [t] else s.history⟩ := by
  have hH3 : ∀ c, heldSum (if t.requires_history then s.history ++ [t] else s.history) c
      = heldSum s.history c := by
    intro c
    split
    · rw [heldSum_append, contrib_eq_zero_of_open hopen]; ring
    · rfl
  have hmemH3 : ∀ u, u ∈ (if t.requires_history then s.history ++ [t] else s.history) →
      u ∈ s.history ∨ (u = t ∧ t.requires_history = true) := by
    intro u hu
    split at hu
    · rcases List.mem_append.mp hu with h | h
      · exact Or.inl h
      · exact Or.inr ⟨List.mem_singleton.mp h, by assumption⟩
    · exact Or.inl hu
  refine ⟨pairwise_ledgerSet hresc hpw1, ?_, ?_, ?_, ?_, ?_⟩
  · intro b hb
    rcases mem_ledgerSet hb with rfl | hb1
    · exact hrest
    · rcases hmem1 b hb1 with h | rfl
      · exact htotS b h
      · simp [Account.new]
  · intro b hb
    rcases mem_ledgerSet_strong hpw1 hb with rfl | ⟨hb1, hbc⟩
    · rw [hresc, hH3]
      exact hresh
    · rw [hH3]
      rcases hmem1 b hb1 with h | rfl
      · exact hheldS b h
      · exact absurd rfl hbc
  · intro u hu
    rcases hmemH3 u hu with h | ⟨rfl, hrh⟩
    · exact hdepS u h
    · exact (requires_history_iff u).mp hrh
  · intro u hu
    rcases hmemH3 u hu with h | ⟨rfl, -⟩
    · exact hposS u h
    · intro hst
      rw [hopen] at hst
      cases hst
  · intro u hu
    rcases hmemH3 u hu with h | ⟨rfl, -⟩
    · obtain ⟨b0, hb0, hb0c⟩ := hcliS u h
      by_cases hb0t : b0.client = t.client
      · exact ⟨res1, self_mem_ledgerSet _ _ _, by rw [hresc, ← hb0t, hb0c]⟩
      · exact ⟨b0, mem_ledgerSet_of_ne (hsub1 b0 hb0) hb0t, hb0c⟩
    · exact ⟨res1, self_mem_ledgerSet _ _ _, hresc⟩

/-- Invariant preservation, apply branch, when `apply_tx` replaced the
referenced transaction `rtx` by `u` (same client, type and amount, new
dispute state) and changed the held funds by the contribution difference. -/
theorem runStep_inv_effect
    (s : RunState) (t : Transaction) (L1 : List Account) (res1 : Account)
    (rtx u : Transaction)
    (hopen : t.state = TransactionState.Open)
    (htotS : ∀ a ∈ s.ledger, a.total = a.available + a.held)
    (hheldS : ∀ a ∈ s.ledger, a.held = heldSum s.history a.client)
    (hdepS : ∀ w ∈ s.history, w._type = TransactionType.Deposit)
    (hposS : ∀ w ∈ s.history, w.state = TransactionState.ActiveDispute → 0 < w.amount.getD 0)
    (hcliS : ∀ w ∈ s.history, ∃ b ∈ s.ledger, b.client = w.client)
    (hpw1 : List.Pairwise (fun p q => p.client ≠ q.client) L1)
    (hmem1 : ∀ b ∈ L1, b ∈ s.ledger ∨ b = Account.new t.client)
    (hsub1 : ∀ b ∈ s.ledger, b ∈ L1)
    (hr : historyLookup s.history t.tx = some rtx)
    (hrc : rtx.client = t.client)
    (huc : u.client = rtx.client)
    (huty : u._type = rtx._type)
    (hposu : u.state = TransactionState.ActiveDispute → 0 < u.amount.getD 0)
    (hresc : res1.client = t.client)
    (hrest : res1.total = res1.available + res1.held)
    (hresh : res1.held =
      heldSum s.history t.client + (contrib u t.client - contrib rtx t.client)) :
    RunInv ⟨ledgerSet L1 t.client res1,
      if t.requires_history then historySet s.history t.tx u ++ [t]
      else historySet s.history t.tx u⟩ := by
  have hrtxS : rtx ∈ s.history := (historyLookup_mem hr).1
  have hH2 : ∀ c, heldSum (historySet s.history t.tx u) c
      = heldSum s.history c - contrib rtx c + contrib u c :=
    fun c => heldSum_set u c hr
  have hH3 : ∀ c, heldSum (if t.requires_history then historySet s.history t.tx u ++ [t]
      else historySet s.history t.tx u) c
      = heldSum s.history c - contrib rtx c + contrib u c := by
    intro c
    split
    · rw [heldSum_append, contrib_eq_zero_of_open hopen, hH2]; ring
    · exact hH2 c
  have hmemH3 : ∀ w, w ∈ (if t.requires_history then historySet s.history t.tx u ++ [t]
      else historySet s.history t.tx u) →
      w ∈ s.history ∨ w = u ∨ (w = t ∧ t.requires_history = true) := by
    intro w hw
    split at hw
    · rcases List.mem_append.mp hw with h | h
      · rcases mem_historySet h with h | h
        · exact Or.inr (Or.inl h)
        · exact Or.inl h
      · exact Or.inr (Or.inr ⟨List.mem_singleton.mp h, by assumption⟩)
    · rcases mem_historySet hw with h | h
      · exact Or.inr (Or.inl h)
      · exact Or.inl h
  refine ⟨pairwise_ledgerSet hresc hpw1, ?_, ?_, ?_, ?_, ?_⟩
  · intro b hb
    rcases mem_ledgerSet hb with rfl | hb1
    · exact hrest
    · rcases hmem1 b hb1 with h | rfl
      · exact htotS b h
      · simp [Account.new]
  · intro b hb
    rcases mem_ledgerSet_strong hpw1 hb with rfl | ⟨hb1, hbc⟩
    · rw [hresc, hH3, hresh]
      ring
    · rw [hH3]
      rcases hmem1 b hb1 with h | rfl
      · rw [contrib_eq_zero_of_ne (fun hq => hbc (by rw [← hq, hrc])),
          contrib_eq_zero_of_ne (fun hq => hbc (by rw [← hq, huc, hrc]))]
        have := hheldS b h
        linarith [this]
      · exact absurd rfl hbc
  · intro w hw
    rcases hmemH3 w hw with h | h | ⟨rfl, hrh⟩
    · exact hdepS w h
    · rw [h, huty]
      exact hdepS rtx hrtxS
    · exact (requires_history_iff w).mp hrh
  · intro w hw
    rcases hmemH3 w hw with h | h | ⟨rfl, -⟩
    · exact hposS w h
    · rw [h]
      exact hposu
    · intro hst
      rw [hopen] at hst
      cases hst
  · intro w hw
    rcases hmemH3 w hw with h | h | ⟨rfl, -⟩
    · obtain ⟨b0, hb0, hb0c⟩ := hcliS w h
      by_cases hb0t : b0.client = t.client
      · exact ⟨res1, self_mem_ledgerSet _ _ _, by rw [hresc, ← hb0t, hb0c]⟩
      · exact ⟨b0, mem_ledgerSet_of_ne (hsub1 b0 hb0) hb0t, hb0c⟩
    · exact ⟨res1, self_mem_ledgerSet _ _ _, by rw [hresc, h, huc, hrc]⟩
    · exact ⟨res1, self_mem_ledgerSet _ _ _, hresc⟩

/-- Invariant preservation across the whole apply branch of the loop body. -/
theorem runStep_inv_apply
    (s : RunState) (t : Transaction) (L1 : List Account) (acc : Account)
    (r : Option Transaction)
    (hopen : t.state = TransactionState.Open)
    (htotS : ∀ a ∈ s.ledger, a.total = a.available + a.held)
    (hheldS : ∀ a ∈ s.ledger, a.held = heldSum s.history a.client)
    (hdepS : ∀ w ∈ s.history, w._type = TransactionType.Deposit)
    (hposS : ∀ w ∈ s.history, w.state = TransactionState.ActiveDispute → 0 < w.amount.getD 0)
    (hcliS : ∀ w ∈ s.history, ∃ b ∈ s.ledger, b.client = w.client)
    (hpw1 : List.Pairwise (fun p q => p.client ≠ q.client) L1)
    (hmem1 : ∀ b ∈ L1, b ∈ s.ledger ∨ b = Account.new t.client)
    (hsub1 : ∀ b ∈ s.ledger, b ∈ L1)
    (hacc1 : ledgerLookup L1 t.client = some acc)
    (haccS : acc ∈ s.ledger ∨ (acc = Account.new t.client ∧ ∀ w ∈ s.history, w.client ≠ t.client))
    (hr : historyLookup s.history t.tx = r)
    (hcl : ∀ rtx, r = some rtx → rtx.client = t.client) :
    RunInv ⟨ledgerSet L1 t.client (acc.applyTxMain t r).1,
      if t.requires_history then writeBack s.history t.tx r (acc.applyTxMain t r).2 ++ [t]
      else writeBack s.history t.tx r (acc.applyTxMain t r).2⟩ := by
  have haccC : acc.client = t.client := (ledgerLookup_mem hacc1).2
  have haccTot : acc.total = acc.available + acc.held := by
    rcases haccS with h | ⟨h, -⟩
    · exact htotS acc h
    · rw [h]; simp [Account.new]
  have haccHeld : acc.held = heldSum s.history t.client := by
    rcases haccS with h | ⟨h, hz⟩
    · rw [← haccC]; exact hheldS acc h
    · rw [h, heldSum_eq_zero hz]; simp [Account.new]
  have hresc : (acc.applyTxMain t r).1.client = t.client := by
    rw [applyTxMain_client, haccC]
  have hrest := applyTxMain_total acc t r haccTot
  rcases applyTxMain_held_outcomes acc t r with ⟨h2, hh⟩ | ⟨rtx, rfl, hdep0, hpos0, hcases⟩
  · have hmatch : writeBack s.history t.tx r (acc.applyTxMain t r).2 = s.history := by
      cases r with
      | none =>
          unfold writeBack
          rw [h2]
      | some rtx =>
          unfold writeBack
          rw [h2]
          exact historySet_lookup_self hr
    rw [hmatch]
    exact runStep_inv_noop s t L1 _ hopen htotS hheldS hdepS hposS hcliS hpw1 hmem1 hsub1
      hresc hrest (by rw [hh, haccHeld])
  · have hrc : rtx.client = t.client := hcl rtx rfl
    rcases hcases with ⟨hst, h2, hh⟩ | ⟨hst, h2, hh⟩ | ⟨hst, h2, hh⟩
    · have hmatch : writeBack s.history t.tx (some rtx) (acc.applyTxMain t (some rtx)).2
          = historySet s.history t.tx { rtx with state := TransactionState.ActiveDispute } := by
        unfold writeBack
        rw [h2]
      rw [hmatch]
      have hcu : contrib { rtx with state := TransactionState.ActiveDispute } t.client
          = rtx.amount.getD 0 := by
        unfold contrib
        rw [if_pos ⟨hrc, rfl⟩]
      refine runStep_inv_effect s t L1 _ rtx _ hopen htotS hheldS hdepS hposS hcliS
        hpw1 hmem1 hsub1 hr hrc rfl rfl (fun _ => hpos0) hresc hrest ?_
      rw [hh, haccHeld, hcu, contrib_eq_zero_of_open hst]
      ring
    · have hmatch : writeBack s.history t.tx (some rtx) (acc.applyTxMain t (some rtx)).2
          = historySet s.history t.tx { rtx with state := TransactionState.Open } := by
        unfold writeBack
        rw [h2]
      rw [hmatch]
      have hcr : contrib rtx t.client = rtx.amount.getD 0 := by
        unfold contrib
        rw [if_pos ⟨hrc, hst⟩]
      refine runStep_inv_effect s t L1 _ rtx _ hopen htotS hheldS hdepS hposS hcliS
        hpw1 hmem1 hsub1 hr hrc rfl rfl (fun hq => by cases hq) hresc hrest ?_
      rw [hh, haccHeld, hcr, contrib_eq_zero_of_open rfl]
      ring
    · have hmatch : writeBack s.history t.tx (some rtx) (acc.applyTxMain t (some rtx)).2
          = historySet s.history t.tx { rtx with state := TransactionState.ChargedBack } := by
        unfold writeBack
        rw [h2]
      rw [hmatch]
      have hcr : contrib rtx t.client = rtx.amount.getD 0 := by
        unfold contrib
        rw [if_pos ⟨hrc, hst⟩]
      have hcu : contrib { rtx with state := TransactionState.ChargedBack } t.client = 0 := by
        unfold contrib
        rw [if_neg]
        rintro ⟨-, hq⟩
        cases hq
      refine runStep_inv_effect s t L1 _ rtx _ hopen htotS hheldS hdepS hposS hcliS
        hpw1 hmem1 hsub1 hr hrc rfl rfl (fun hq => by cases hq) hresc hrest ?_
      rw [hh, haccHeld, hcr, hcu]
      ring

/-- Invariant preservation for the cross-client skip branch when the account
was freshly created. -/
theorem runStep_inv_skip_new
    (s : RunState) (c : Nat)
    (hpw : List.Pairwise (fun p q => p.client ≠ q.client) s.ledger)
    (htotS : ∀ a ∈ s.ledger, a.total = a.available + a.held)
    (hheldS : ∀ a ∈ s.ledger, a.held = heldSum s.history a.client)
    (hdepS : ∀ w ∈ s.history, w._type = TransactionType.Deposit)
    (hposS : ∀ w ∈ s.history, w.state = TransactionState.ActiveDispute → 0 < w.amount.getD 0)
    (hcliS : ∀ w ∈ s.history, ∃ b ∈ s.ledger, b.client = w.client)
    (hl : ledgerLookup s.ledger c = none) :
    RunInv ⟨s.ledger ++ [Account.new c], s.history⟩ := by
  have hnotin : ∀ w ∈ s.history, w.client ≠ c := by
    intro w hw hc
    obtain ⟨b, hb, hbc⟩ := hcliS w hw
    exact ledgerLookup_eq_none hl b hb (by rw [hbc, hc])
  have hz : heldSum s.history c = 0 := heldSum_eq_zero hnotin
  refine ⟨?_, ?_, ?_, hdepS, hposS, ?_⟩
  · rw [List.pairwise_append]
    refine ⟨hpw, List.pairwise_singleton _ _, ?_⟩
    intro a ha b hb
    rw [List.mem_singleton.mp hb]
    exact ledgerLookup_eq_none hl a ha
  · intro b hb
    rcases List.mem_append.mp hb with h | h
    · exact htotS b h
    · rw [List.mem_singleton.mp h]; simp [Account.new]
  · intro b hb
    rcases List.mem_append.mp hb with h | h
    · exact hheldS b h
    · rw [List.mem_singleton.mp h]
      simpa [Account.new] using hz.symm
  · intro w hw
    obtain ⟨b, hb, hbc⟩ := hcliS w hw
    exact ⟨b, List.mem_append_left _ hb, hbc⟩

/-- One loop iteration preserves the run invariant. -/
theorem runStep_preserves_RunInv {s : RunState} {t : Transaction} {s1 : RunState}
    (hopen : t.state = TransactionState.Open)
    (hinv : RunInv s) (hstep : runStep s t = Except.ok s1) : RunInv s1 := by
  obtain ⟨hpw, htot, hheld, hdep, hpos, hcli⟩ := hinv
  simp only [runStep] at hstep
  by_cases hneg : t.amount.getD 0 < 0
  · rw [if_pos hneg] at hstep
    obtain rfl : s = s1 := Except.ok.inj hstep
    exact ⟨hpw, htot, hheld, hdep, hpos, hcli⟩
  rw [if_neg hneg] at hstep
  cases hrl : historyLookup s.history t.tx with
  | none =>
      have hcond2 : ¬((t.requires_unique_tx && historyContains s.history t.tx) = true) := by
        simp [historyContains, hrl]
      rw [if_neg hcond2, hrl] at hstep
      simp only [Option.map_none', Option.getD_none] at hstep
      rw [if_pos (by simp : (t.client == t.client) = true)] at hstep
      cases hll : ledgerLookup s.ledger t.client with
      | some a0 =>
          simp only [hll, Option.getD_some] at hstep
          obtain rfl := Except.ok.inj hstep
          refine runStep_inv_apply s t s.ledger a0 none hopen htot hheld hdep hpos hcli
            hpw (fun b hb => Or.inl hb) (fun b hb => hb) hll (Or.inl (ledgerLookup_mem hll).1)
            hrl (fun rtx h => Option.noConfusion h)
      | none =>
          have happ : ledgerLookup (s.ledger ++ [Account.new t.client]) t.client
              = some (Account.new t.client) := by
            rw [ledgerLookup_append_right hll]
            simp [ledgerLookup, Account.new]
          simp only [hll, happ, Option.getD_some] at hstep
          obtain rfl := Except.ok.inj hstep
          have hnotin : ∀ w ∈ s.history, w.client ≠ t.client := by
            intro w hw hc
            obtain ⟨b, hb, hbc⟩ := hcli w hw
            exact ledgerLookup_eq_none hll b hb (by rw [hbc, hc])
          refine runStep_inv_apply s t (s.ledger ++ [Account.new t.client])
            (Account.new t.client) none hopen htot hheld hdep hpos hcli ?_ ?_
            (fun b hb => List.mem_append_left _ hb) happ (Or.inr ⟨rfl, hnotin⟩)
            hrl (fun rtx h => Option.noConfusion h)
          · rw [List.pairwise_append]
            refine ⟨hpw, List.pairwise_singleton _ _, ?_⟩
            intro a ha b hb
            rw [List.mem_singleton.mp hb]
            exact ledgerLookup_eq_none hll a ha
          · intro b hb
            rcases List.mem_append.mp hb with h | h
            · exact Or.inl h
            · exact Or.inr (List.mem_singleton.mp h)
  | some rtx =>
      by_cases huniq : t.requires_unique_tx = true
      · have hcond2 : (t.requires_unique_tx && historyContains s.history t.tx) = true := by
          simp [historyContains, hrl, huniq]
        rw [if_pos hcond2] at hstep
        exact Except.noConfusion hstep
      have hcond2 : ¬((t.requires_unique_tx && historyContains s.history t.tx) = true) := by
        simp [Bool.eq_false_iff.mpr huniq]
      rw [if_neg hcond2, hrl] at hstep
      simp only [Option.map_some', Option.getD_some] at hstep
      by_cases hclc : rtx.client = t.client
      · rw [if_pos (by simp [hclc] : (rtx.client == t.client) = true)] at hstep
        cases hll : ledgerLookup s.ledger t.client with
        | some a0 =>
            simp only [hll, Option.getD_some] at hstep
            obtain rfl := Except.ok.inj hstep
            exact runStep_inv_apply s t s.ledger a0 (some rtx) hopen htot hheld hdep hpos hcli
              hpw (fun b hb => Or.inl hb) (fun b hb => hb) hll (Or.inl (ledgerLookup_mem hll).1)
              hrl (fun r' h => by cases h; exact hclc)
        | none =>
            have happ : ledgerLookup (s.ledger ++ [Account.new t.client]) t.client
                = some (Account.new t.client) := by
              rw [ledgerLookup_append_right hll]
              simp [ledgerLookup, Account.new]
            simp only [hll, happ, Option.getD_some] at hstep
            obtain rfl := Except.ok.inj hstep
            have hnotin : ∀ w ∈ s.history, w.client ≠ t.client := by
              intro w hw hc
              obtain ⟨b, hb, hbc⟩ := hcli w hw
              exact ledgerLookup_eq_none hll b hb (by rw [hbc, hc])
            refine runStep_inv_apply s t (s.ledger ++ [Account.new t.client])
              (Account.new t.client) (some rtx) hopen htot hheld hdep hpos hcli ?_ ?_
              (fun b hb => List.mem_append_left _ hb) happ (Or.inr ⟨rfl, hnotin⟩)
              hrl (fun r' h => by cases h; exact hclc)
            · rw [List.pairwise_append]
              refine ⟨hpw, List.pairwise_singleton _ _, ?_⟩
              intro a ha b hb
              rw [List.mem_singleton.mp hb]
              exact ledgerLookup_eq_none hll a ha
            · intro b hb
              rcases List.mem_append.mp hb with h | h
              · exact Or.inl h
              · exact Or.inr (List.mem_singleton.mp h)
      · rw [if_neg (by simp [hclc] : ¬((rtx.client == t.client) = true))] at hstep
        cases hll : ledgerLookup s.ledger t.client with
        | some a0 =>
            simp only [hll] at hstep
            obtain rfl := Except.ok.inj hstep
            exact ⟨hpw, htot, hheld, hdep, hpos, hcli⟩
        | none =>
            simp only [hll] at hstep
            obtain rfl := Except.ok.inj hstep
            exact runStep_inv_skip_new s t.client hpw htot hheld hdep hpos hcli hll

/-- The invariant propagates through the rest of the loop. -/
theorem runAux_preserves_RunInv :
    ∀ (ts : List Transaction) (s s1 : RunState),
      (∀ t ∈ ts, t.state = TransactionState.Open) →
      RunInv s → runAux s ts = Except.ok s1 → RunInv s1 := by
  intro ts
  induction ts with
  | nil =>
      intro s s1 _ hinv hstep
      obtain rfl := Except.ok.inj hstep
      exact hinv
  | cons t ts ih =>
      intro s s1 hopen hinv hstep
      unfold runAux at hstep
      cases hone : runStep s t with
      | ok s2 =>
          rw [hone] at hstep
          exact ih s2 s1 (fun u hu => hopen u (List.mem_cons_of_mem _ hu))
            (runStep_preserves_RunInv (hopen t (List.mem_cons_self _ _)) hinv hone) hstep
      | error e =>
          rw [hone] at hstep
          exact Except.noConfusion hstep

/-- The empty starting state satisfies the invariant. -/
theorem runInv_init : RunInv ⟨[], []⟩ := by
  refine ⟨List.Pairwise.nil, ?_, ?_, ?_, ?_, ?_⟩ <;> intro x hx <;> cases hx

/-- Any successful run from the empty state satisfies the invariant. -/
theorem run_RunInv {ts : List Transaction} {s : RunState}
    (hopen : ∀ t ∈ ts, t.state = TransactionState.Open)
    (h : run ts = Except.ok s) : RunInv s :=
  runAux_preserves_RunInv ts ⟨[], []⟩ s hopen runInv_init h

/-- Normalization of `Nat` equality tests to `decide`, letting simp evaluate
concrete driver runs. -/
theorem nat_beq_eq_decide (a b : Nat) : (a == b) = decide (a = b) := by
  cases h : decide (a = b) <;> simp_all

/-! ### Claim theorems -/

/-- C10: the two independently written copies of the account state machine,
`Account::apply_tx` in account.rs and the private `Account::apply_tx` in
main.rs, are extensionally equal: for every starting account, transaction and
optional referenced transaction they produce identical final account fields
and identical referenced-transaction dispute state. -/
theorem claim_C10_apply_tx_copies_agree :
    ∀ (a : Account) (t : Transaction) (r : Option Transaction),
      a.apply_tx t r = a.applyTxMain t r :=
  fun a t r => apply_tx_eq_applyTxMain a t r

/-- C3: `apply_tx` preserves `total = available + held` for any transaction and
optional referenced transaction, and hence in every successful run of the
driver loop from the default (empty) state every account satisfies
`total = available + held` between event applications. -/
theorem claim_C3_total_eq_available_add_held :
    (∀ (a : Account) (t : Transaction) (r : Option Transaction),
        a.total = a.available + a.held →
        ((a.apply_tx t r).1).total =
          ((a.apply_tx t r).1).available + ((a.apply_tx t r).1).held) ∧
    (∀ (ts : List Transaction) (s : RunState),
        (∀ t ∈ ts, t.state = TransactionState.Open) →
        run ts = Except.ok s →
        ∀ a ∈ s.ledger, a.total = a.available + a.held) := by
  constructor
  · intro a t r h
    rw [apply_tx_eq_applyTxMain]
    exact applyTxMain_total a t r h
  · intro ts s hopen h
    exact (run_RunInv hopen h).2.1

/-- C3 witness: concrete instances of both conjuncts. -/
theorem claim_C3_total_eq_available_add_held_witness :
    (((Account.new 1).apply_tx
        ⟨TransactionType.Deposit, 1, 1, some 3, TransactionState.Open⟩ none).1).total =
      (((Account.new 1).apply_tx
        ⟨TransactionType.Deposit, 1, 1, some 3, TransactionState.Open⟩ none).1).available +
      (((Account.new 1).apply_tx
        ⟨TransactionType.Deposit, 1, 1, some 3, TransactionState.Open⟩ none).1).held ∧
    (∀ a ∈ ([⟨1, 3, 0, 3, false⟩] : List Account), a.total = a.available + a.held) := by
  constructor
  · exact claim_C3_total_eq_available_add_held.1 (Account.new 1)
      ⟨TransactionType.Deposit, 1, 1, some 3, TransactionState.Open⟩ none
      (by norm_num [Account.new])
  · exact claim_C3_total_eq_available_add_held.2
      [⟨TransactionType.Deposit, 1, 1, some 3, TransactionState.Open⟩]
      ⟨[⟨1, 3, 0, 3, false⟩], [⟨TransactionType.Deposit, 1, 1, some 3, TransactionState.Open⟩]⟩
      (by decide)
      (by norm_num [run, runAux, runStep, ledgerLookup, ledgerSet, historyLookup,
        historyContains, historySet, writeBack, Account.applyTxMain, Account.applyBodyMain,
        Account.is_locked_tx, Account.new, Transaction.requires_unique_tx,
        Transaction.requires_history, List.find?, nat_beq_eq_decide])

/-- C5: on a locked account a Deposit or Withdrawal is silently ignored
(account and referenced transaction unchanged, no error), while the
dispute-family events are never blocked by the lock: `apply_tx` behaves
exactly as the unguarded match body for Dispute, Resolve and Chargeback. -/
theorem claim_C5_locked_account_guard :
    ∀ (a : Account) (t : Transaction) (r : Option Transaction),
      (a.locked = true →
        (t._type = TransactionType.Deposit ∨ t._type = TransactionType.Withdrawal) →
        a.apply_tx t r = (a, r)) ∧
      ((t._type = TransactionType.Dispute ∨ t._type = TransactionType.Resolve ∨
          t._type = TransactionType.Chargeback) →
        a.apply_tx t r = a.applyBody t r) := by
  intro a t r
  constructor
  · intro hlock hty
    have hguard : a.is_locked_tx t = true := by
      unfold Account.is_locked_tx
      rcases hty with h | h <;> rw [h] <;> exact hlock
    unfold Account.apply_tx
    rw [if_pos hguard]
  · intro hty
    have hguard : a.is_locked_tx t = false := by
      unfold Account.is_locked_tx
      rcases hty with h | h | h <;> rw [h]
    unfold Account.apply_tx
    rw [if_neg (by rw [hguard]; exact Bool.false_ne_true)]

/-- C5 witness: a locked account ignores a deposit, and a chargeback on a
locked account goes through the ordinary match body. -/
theorem claim_C5_locked_account_guard_witness :
    (Account.mk 1 3 0 3 true).apply_tx
        ⟨TransactionType.Deposit, 1, 9, some 5, TransactionState.Open⟩ none
      = (Account.mk 1 3 0 3 true, none) ∧
    (Account.mk 1 3 0 3 true).apply_tx
        ⟨TransactionType.Chargeback, 1, 1, none, TransactionState.Open⟩
        (some ⟨TransactionType.Deposit, 1, 1, some 3, TransactionState.ActiveDispute⟩)
      = (Account.mk 1 3 0 3 true).applyBody
        ⟨TransactionType.Chargeback, 1, 1, none, TransactionState.Open⟩
        (some ⟨TransactionType.Deposit, 1, 1, some 3, TransactionState.ActiveDispute⟩) := by
  constructor
  · exact (claim_C5_locked_account_guard (Account.mk 1 3 0 3 true)
      ⟨TransactionType.Deposit, 1, 9, some 5, TransactionState.Open⟩ none).1
      (by decide) (Or.inl rfl)
  · exact (claim_C5_locked_account_guard (Account.mk 1 3 0 3 true)
      ⟨TransactionType.Chargeback, 1, 1, none, TransactionState.Open⟩
      (some ⟨TransactionType.Deposit, 1, 1, some 3, TransactionState.ActiveDispute⟩)).2
      (Or.inr (Or.inr rfl))

theorem ledgerLookup_set_other {l : List Account} {c c2 : Nat} {x : Account}
    (hne : c ≠ c2) (hx : x.client = c2) :
    ledgerLookup (ledgerSet l c2 x) c = ledgerLookup l c := by
  induction l with
  | nil =>
      unfold ledgerSet ledgerLookup
      rw [List.find?_cons_of_neg _ (by simp [hx]; exact fun h => hne h.symm)]
  | cons y ys ih =>
      unfold ledgerSet
      by_cases hy : (y.client == c2) = true
      · rw [if_pos hy]
        have hyc : y.client = c2 := by simpa using hy
        unfold ledgerLookup
        rw [List.find?_cons_of_neg _ (by simp [hx]; exact fun h => hne h.symm),
          List.find?_cons_of_neg _ (by simp [hyc]; exact fun h => hne h.symm)]
      · rw [if_neg hy]
        unfold ledgerLookup
        by_cases hyc : (y.client == c) = true
        · rw [List.find?_cons_of_pos (p := fun (b : Account) => b.client == c) _ hyc,
            List.find?_cons_of_pos (p := fun (b : Account) => b.client == c) _ hyc]
        · rw [List.find?_cons_of_neg (p := fun (b : Account) => b.client == c) _ hyc,
            List.find?_cons_of_neg (p := fun (b : Account) => b.client == c) _ hyc]
          exact ih

/-- One loop iteration keeps every existing account in the ledger and never
clears its locked flag. -/
theorem runStep_ledger_mono {s : RunState} {t : Transaction} {s1 : RunState} {c : Nat}
    {a : Account} (hstep : runStep s t = Except.ok s1)
    (hl : ledgerLookup s.ledger c = some a) :
    ∃ a1, ledgerLookup s1.ledger c = some a1 ∧ (a.locked = true → a1.locked = true) := by
  simp only [runStep] at hstep
  by_cases hneg : t.amount.getD 0 < 0
  · rw [if_pos hneg] at hstep
    obtain rfl : s = s1 := Except.ok.inj hstep
    exact ⟨a, hl, fun h => h⟩
  rw [if_neg hneg] at hstep
  by_cases hcond2 : (t.requires_unique_tx && historyContains s.history t.tx) = true
  · rw [if_pos hcond2] at hstep
    exact Except.noConfusion hstep
  rw [if_neg hcond2] at hstep
  by_cases hcl : ((((historyLookup s.history t.tx).map fun r => r.client).getD t.client)
      == t.client) = true
  · rw [if_pos hcl] at hstep
    cases hll : ledgerLookup s.ledger t.client with
    | some a0 =>
        simp only [hll, Option.getD_some] at hstep
        obtain rfl := Except.ok.inj hstep
        by_cases hct : c = t.client
        · subst hct
          have ha0 : a0 = a := by rw [hll] at hl; exact Option.some_inj.mp hl
          subst ha0
          refine ⟨(a0.applyTxMain t (historyLookup s.history t.tx)).1, ?_, ?_⟩
          · exact ledgerLookup_set_self
              (by rw [applyTxMain_client]; exact (ledgerLookup_mem hll).2)
          · intro h
            exact applyTxMain_locked a0 t _ h
        · refine ⟨a, ?_, fun h => h⟩
          rw [ledgerLookup_set_other hct
            (by rw [applyTxMain_client]; exact (ledgerLookup_mem hll).2)]
          exact hl
    | none =>
        have happ : ledgerLookup (s.ledger ++ [Account.new t.client]) t.client
            = some (Account.new t.client) := by
          rw [ledgerLookup_append_right hll]
          simp [ledgerLookup, Account.new]
        simp only [hll, happ, Option.getD_some] at hstep
        obtain rfl := Except.ok.inj hstep
        by_cases hct : c = t.client
        · subst hct
          rw [hll] at hl
          exact Option.noConfusion hl
        · refine ⟨a, ?_, fun h => h⟩
          rw [ledgerLookup_set_other hct
            (by rw [applyTxMain_client]; exact (ledgerLookup_mem happ).2)]
          exact ledgerLookup_append_left hl
  · rw [if_neg hcl] at hstep
    cases hll : ledgerLookup s.ledger t.client with
    | some a0 =>
        simp only [hll] at hstep
        obtain rfl := Except.ok.inj hstep
        exact ⟨a, hl, fun h => h⟩
    | none =>
        simp only [hll] at hstep
        obtain rfl := Except.ok.inj hstep
        exact ⟨a, ledgerLookup_append_left hl, fun h => h⟩

/-- After a successful loop iteration whose event passed the negative-amount
filter, the target client has an account in the ledger. -/
theorem runStep_creates {s : RunState} {t : Transaction} {s1 : RunState}
    (hneg : ¬(t.amount.getD 0 < 0)) (hstep : runStep s t = Except.ok s1) :
    ∃ a, ledgerLookup s1.ledger t.client = some a := by
  simp only [runStep] at hstep
  rw [if_neg hneg] at hstep
  by_cases hcond2 : (t.requires_unique_tx && historyContains s.history t.tx) = true
  · rw [if_pos hcond2] at hstep
    exact Except.noConfusion hstep
  rw [if_neg hcond2] at hstep
  have hledg : ∀ (L1 : List Account) (acc : Account) (r : Option Transaction),
      acc.client = t.client →
      ∃ a, ledgerLookup (ledgerSet L1 t.client (acc.applyTxMain t r).1) t.client = some a := by
    intro L1 acc r hc
    exact ⟨_, ledgerLookup_set_self (by rw [applyTxMain_client, hc])⟩
  by_cases hcl : ((((historyLookup s.history t.tx).map fun r => r.client).getD t.client)
      == t.client) = true
  · rw [if_pos hcl] at hstep
    cases hll : ledgerLookup s.ledger t.client with
    | some a0 =>
        simp only [hll, Option.getD_some] at hstep
        obtain rfl := Except.ok.inj hstep
        exact hledg s.ledger a0 _ (ledgerLookup_mem hll).2
    | none =>
        have happ : ledgerLookup (s.ledger ++ [Account.new t.client]) t.client
            = some (Account.new t.client) := by
          rw [ledgerLookup_append_right hll]
          simp [ledgerLookup, Account.new]
        simp only [hll, happ, Option.getD_some] at hstep
        obtain rfl := Except.ok.inj hstep
        exact hledg (s.ledger ++ [Account.new t.client]) (Account.new t.client) _ rfl
  · rw [if_neg hcl] at hstep
    cases hll : ledgerLookup s.ledger t.client with
    | some a0 =>
        simp only [hll] at hstep
        obtain rfl := Except.ok.inj hstep
        exact ⟨a0, hll⟩
    | none =>
        simp only [hll] at hstep
        obtain rfl := Except.ok.inj hstep
        refine ⟨Account.new t.client, ?_⟩
        rw [ledgerLookup_append_right hll]
        simp [ledgerLookup, Account.new]

/-- Accounts persist and stay locked through the rest of the loop. -/
theorem runAux_ledger_mono :
    ∀ (ts : List Transaction) (s s1 : RunState) (c : Nat) (a : Account),
      runAux s ts = Except.ok s1 → ledgerLookup s.ledger c = some a →
      ∃ a1, ledgerLookup s1.ledger c = some a1 ∧ (a.locked = true → a1.locked = true) := by
  intro ts
  induction ts with
  | nil =>
      intro s s1 c a hstep hl
      obtain rfl := Except.ok.inj hstep
      exact ⟨a, hl, fun h => h⟩
  | cons t ts ih =>
      intro s s1 c a hstep hl
      unfold runAux at hstep
      cases hone : runStep s t with
      | ok s2 =>
          rw [hone] at hstep
          obtain ⟨a2, hl2, hlock2⟩ := runStep_ledger_mono hone hl
          obtain ⟨a1, hl1, hlock1⟩ := ih s2 s1 c a2 hstep hl2
          exact ⟨a1, hl1, fun h => hlock1 (hlock2 h)⟩
      | error e =>
          rw [hone] at hstep
          exact Except.noConfusion hstep

/-- C7: the locked flag is monotonic: `apply_tx` never clears it, and once an
account in the driver ledger is locked it stays locked for the rest of the
run, whatever events follow. -/
theorem claim_C7_locked_monotonic :
    (∀ (a : Account) (t : Transaction) (r : Option Transaction),
        a.locked = true → ((a.apply_tx t r).1).locked = true) ∧
    (∀ (ts : List Transaction) (s s1 : RunState) (c : Nat) (a : Account),
        runAux s ts = Except.ok s1 → ledgerLookup s.ledger c = some a → a.locked = true →
        ∃ a1, ledgerLookup s1.ledger c = some a1 ∧ a1.locked = true) := by
  constructor
  · intro a t r h
    rw [apply_tx_eq_applyTxMain]
    exact applyTxMain_locked a t r h
  · intro ts s s1 c a hrun hl hlock
    obtain ⟨a1, h1, h2⟩ := runAux_ledger_mono ts s s1 c a hrun hl
    exact ⟨a1, h1, h2 hlock⟩

/-- C7 witness: a locked account stays locked under a deposit, both for a
single `apply_tx` call and through a run suffix. -/
theorem claim_C7_locked_monotonic_witness :
    (((Account.mk 1 0 0 0 true).apply_tx
        ⟨TransactionType.Deposit, 1, 1, some 5, TransactionState.Open⟩ none).1).locked = true ∧
    (∃ a1, ledgerLookup
        [Account.mk 1 0 0 0 true] 1 = some a1 ∧ a1.locked = true) := by
  constructor
  · exact claim_C7_locked_monotonic.1 (Account.mk 1 0 0 0 true)
      ⟨TransactionType.Deposit, 1, 1, some 5, TransactionState.Open⟩ none rfl
  · exact claim_C7_locked_monotonic.2
      [⟨TransactionType.Deposit, 1, 1, some 5, TransactionState.Open⟩]
      ⟨[Account.mk 1 0 0 0 true], []⟩
      ⟨[Account.mk 1 0 0 0 true],
        [⟨TransactionType.Deposit, 1, 1, some 5, TransactionState.Open⟩]⟩
      1 (Account.mk 1 0 0 0 true)
      (by norm_num [runAux, runStep, ledgerLookup, ledgerSet, historyLookup, historyContains,
        historySet, writeBack, Account.applyTxMain, Account.applyBodyMain, Account.is_locked_tx,
        Account.new, Transaction.requires_unique_tx, Transaction.requires_history, List.find?,
        nat_beq_eq_decide])
      rfl rfl

/-- C8: the driver creates the target account before the cross-client check
and before `apply_tx` decides anything: any successfully processed event whose
amount passed the negativity filter leaves an account for its client in the
ledger; accounts persist through later iterations; and concretely a client
whose only event is a cross-client dispute ends in the output snapshot with
zero balances and unlocked. -/
theorem claim_C8_account_created_before_checks :
    (∀ (s : RunState) (t : Transaction) (s1 : RunState),
        ¬(t.amount.getD 0 < 0) → runStep s t = Except.ok s1 →
        ∃ a, ledgerLookup s1.ledger t.client = some a) ∧
    (∀ (s : RunState) (t : Transaction) (s1 : RunState) (c : Nat) (a : Account),
        runStep s t = Except.ok s1 → ledgerLookup s.ledger c = some a →
        ∃ a1, ledgerLookup s1.ledger c = some a1) ∧
    run [⟨TransactionType.Deposit, 1, 1, some 1, TransactionState.Open⟩,
         ⟨TransactionType.Dispute, 2, 1, none, TransactionState.Open⟩]
      = Except.ok ⟨[⟨1, 1, 0, 1, false⟩, ⟨2, 0, 0, 0, false⟩],
          [⟨TransactionType.Deposit, 1, 1, some 1, TransactionState.Open⟩]⟩ ∧
    run [⟨TransactionType.Dispute, 1, 99, none, TransactionState.Open⟩]
      = Except.ok ⟨[⟨1, 0, 0, 0, false⟩], []⟩ := by
  refine ⟨?_, ?_, ?_, ?_⟩
  · intro s t s1 hneg hstep
    exact runStep_creates hneg hstep
  · intro s t s1 c a hstep hl
    obtain ⟨a1, h1, -⟩ := runStep_ledger_mono hstep hl
    exact ⟨a1, h1⟩
  · norm_num [run, runAux, runStep, ledgerLookup, ledgerSet, historyLookup, historyContains,
      historySet, writeBack, Account.applyTxMain, Account.applyBodyMain, Account.is_locked_tx,
      Account.new, Transaction.requires_unique_tx, Transaction.requires_history, List.find?,
      nat_beq_eq_decide]
  · norm_num [run, runAux, runStep, ledgerLookup, ledgerSet, historyLookup, historyContains,
      historySet, writeBack, Account.applyTxMain, Account.applyBodyMain, Account.is_locked_tx,
      Account.new, Transaction.requires_unique_tx, Transaction.requires_history, List.find?,
      nat_beq_eq_decide]

/-- C8 witness: both universally quantified parts applied at concrete inputs. -/
theorem claim_C8_account_created_before_checks_witness :
    (∃ a, ledgerLookup [Account.new 2] 2 = some a) ∧
    (∃ a1, ledgerLookup [Account.mk 1 1 0 1 false, Account.mk 2 2 0 2 false] 1 = some a1) := by
  constructor
  · exact claim_C8_account_created_before_checks.1 ⟨[], []⟩
      ⟨TransactionType.Dispute, 2, 1, none, TransactionState.Open⟩ ⟨[Account.new 2], []⟩
      (by norm_num)
      (by norm_num [runStep, ledgerLookup, ledgerSet, historyLookup, historyContains,
        historySet, writeBack, Account.applyTxMain, Account.applyBodyMain, Account.is_locked_tx,
        Account.new, Transaction.requires_unique_tx, Transaction.requires_history, List.find?,
        nat_beq_eq_decide])
  · exact claim_C8_account_created_before_checks.2.1 ⟨[Account.mk 1 1 0 1 false], []⟩
      ⟨TransactionType.Deposit, 2, 5, some 2, TransactionState.Open⟩
      ⟨[Account.mk 1 1 0 1 false, Account.mk 2 2 0 2 false],
        [⟨TransactionType.Deposit, 2, 5, some 2, TransactionState.Open⟩]⟩
      1 (Account.mk 1 1 0 1 false)
      (by norm_num [runStep, ledgerLookup, ledgerSet, historyLookup, historyContains,
        historySet, writeBack, Account.applyTxMain, Account.applyBodyMain, Account.is_locked_tx,
        Account.new, Transaction.requires_unique_tx, Transaction.requires_history, List.find?,
        nat_beq_eq_decide])
      rfl

/-- C9: in every successful run of the driver loop from empty state on parsed
records (whose dispute state starts Open, per the serde skip attribute), every
account's held funds are non-negative — equivalently available ≤ total — and
held equals the sum of the amounts of that client's retained deposits
currently in ActiveDispute, each of which is positive. -/
theorem claim_C9_held_nonneg :
    ∀ (ts : List Transaction) (s : RunState),
      (∀ t ∈ ts, t.state = TransactionState.Open) →
      run ts = Except.ok s →
      (∀ a ∈ s.ledger, 0 ≤ a.held ∧ a.available ≤ a.total ∧
        a.held = heldSum s.history a.client) ∧
      (∀ w ∈ s.history, w.state = TransactionState.ActiveDispute →
        w._type = TransactionType.Deposit ∧ 0 < w.amount.getD 0) := by
  intro ts s hopen h
  obtain ⟨hpw, htot, hheld, hdep, hpos, hcli⟩ := run_RunInv hopen h
  refine ⟨?_, fun w hw hst => ⟨hdep w hw, hpos w hw hst⟩⟩
  intro a ha
  have h1 := hheld a ha
  have h2 : (0 : Rat) ≤ heldSum s.history a.client := heldSum_nonneg hpos
  have h3 := htot a ha
  exact ⟨by linarith, by linarith, h1⟩

/-- C9 witness: a deposit followed by its dispute, evaluated concretely. -/
theorem claim_C9_held_nonneg_witness :
    (∀ a ∈ ([⟨1, 0, 5, 5, false⟩] : List Account), 0 ≤ a.held ∧ a.available ≤ a.total ∧
      a.held = heldSum [⟨TransactionType.Deposit, 1, 1, some 5,
        TransactionState.ActiveDispute⟩] a.client) ∧
    (∀ w ∈ ([⟨TransactionType.Deposit, 1, 1, some 5, TransactionState.ActiveDispute⟩] :
        List Transaction),
      w.state = TransactionState.ActiveDispute →
      w._type = TransactionType.Deposit ∧ 0 < w.amount.getD 0) :=
  claim_C9_held_nonneg
    [⟨TransactionType.Deposit, 1, 1, some 5, TransactionState.Open⟩,
     ⟨TransactionType.Dispute, 1, 1, none, TransactionState.Open⟩]
    ⟨[⟨1, 0, 5, 5, false⟩],
     [⟨TransactionType.Deposit, 1, 1, some 5, TransactionState.ActiveDispute⟩]⟩
    (by decide)
    (by norm_num [run, runAux, runStep, ledgerLookup, ledgerSet, historyLookup, historyContains,
      historySet, writeBack, Account.applyTxMain, Account.applyBodyMain, Account.is_locked_tx,
      Account.new, Transaction.requires_unique_tx, Transaction.requires_history, List.find?,
      nat_beq_eq_decide])

/-- C4: every dispute-family event is all-or-nothing: either account and
referenced transaction are both completely unchanged, or the referenced
transaction is a positive-amount deposit in the state required by the event
kind and the full per-kind effect is applied to both. -/
theorem claim_C4_dispute_family_atomic :
    ∀ (a : Account) (t : Transaction) (r : Option Transaction),
      (t._type = TransactionType.Dispute ∨ t._type = TransactionType.Resolve ∨
        t._type = TransactionType.Chargeback) →
      a.apply_tx t r = (a, r) ∨
      (∃ rtx, r = some rtx ∧ rtx._type = TransactionType.Deposit ∧
        0 < rtx.amount.getD 0 ∧
        ((t._type = TransactionType.Dispute ∧ rtx.state = TransactionState.Open ∧
          a.apply_tx t r =
            ({ a with available := a.available - rtx.amount.getD 0,
                      held := a.held + rtx.amount.getD 0 },
             some { rtx with state := TransactionState.ActiveDispute })) ∨
         (t._type = TransactionType.Resolve ∧ rtx.state = TransactionState.ActiveDispute ∧
          a.apply_tx t r =
            ({ a with available := a.available + rtx.amount.getD 0,
                      held := a.held - rtx.amount.getD 0 },
             some { rtx with state := TransactionState.Open })) ∨
         (t._type = TransactionType.Chargeback ∧ rtx.state = TransactionState.ActiveDispute ∧
          a.apply_tx t r =
            ({ a with total := a.total - rtx.amount.getD 0,
                      held := a.held - rtx.amount.getD 0, locked := true },
             some { rtx with state := TransactionState.ChargedBack })))) := by
  intro a t r ht
  obtain ⟨ty, tc, ti, ta, ts⟩ := t
  have hty : ty = TransactionType.Dispute ∨ ty = TransactionType.Resolve ∨
      ty = TransactionType.Chargeback := ht
  cases r with
  | none =>
      left
      rcases hty with rfl | rfl | rfl <;> rfl
  | some rtx =>
      obtain ⟨rty, rc, ri, ra, rs⟩ := rtx
      rcases hty with rfl | rfl | rfl <;> cases rty <;> cases rs <;>
        simp only [Account.apply_tx, Account.is_locked_tx, Account.applyBody] <;>
        (repeat' split) <;>
        first
          | (rename_i hpos
             right
             exact ⟨⟨TransactionType.Deposit, rc, ri, ra, TransactionState.Open⟩, rfl, rfl, hpos,
               Or.inl ⟨rfl, rfl, rfl⟩⟩)
          | (rename_i hpos
             right
             refine ⟨⟨TransactionType.Deposit, rc, ri, ra, TransactionState.ActiveDispute⟩,
               rfl, rfl, hpos, ?_⟩
             first
               | exact Or.inr (Or.inl ⟨rfl, rfl, rfl⟩)
               | exact Or.inr (Or.inr ⟨rfl, rfl, rfl⟩))
          | (left; rfl)
          | simp_all

/-- C4 witness: the theorem applied to a dispute against an open deposit. -/
theorem claim_C4_dispute_family_atomic_witness :
    (Account.mk 1 5 0 5 false).apply_tx
        ⟨TransactionType.Dispute, 1, 1, none, TransactionState.Open⟩
        (some ⟨TransactionType.Deposit, 1, 1, some 5, TransactionState.Open⟩)
      = (Account.mk 1 5 0 5 false,
         some ⟨TransactionType.Deposit, 1, 1, some 5, TransactionState.Open⟩) ∨
    (∃ rtx, (some ⟨TransactionType.Deposit, 1, 1, some 5, TransactionState.Open⟩ :
        Option Transaction) = some rtx ∧
      rtx._type = TransactionType.Deposit ∧ 0 < rtx.amount.getD 0 ∧
      ((TransactionType.Dispute = TransactionType.Dispute ∧
        rtx.state = TransactionState.Open ∧
        (Account.mk 1 5 0 5 false).apply_tx
            ⟨TransactionType.Dispute, 1, 1, none, TransactionState.Open⟩
            (some ⟨TransactionType.Deposit, 1, 1, some 5, TransactionState.Open⟩) =
          ({ Account.mk 1 5 0 5 false with
              available := (Account.mk 1 5 0 5 false).available - rtx.amount.getD 0,
              held := (Account.mk 1 5 0 5 false).held + rtx.amount.getD 0 },
           some { rtx with state := TransactionState.ActiveDispute })) ∨
       (TransactionType.Dispute = TransactionType.Resolve ∧
        rtx.state = TransactionState.ActiveDispute ∧
        (Account.mk 1 5 0 5 false).apply_tx
            ⟨TransactionType.Dispute, 1, 1, none, TransactionState.Open⟩
            (some ⟨TransactionType.Deposit, 1, 1, some 5, TransactionState.Open⟩) =
          ({ Account.mk 1 5 0 5 false with
              available := (Account.mk 1 5 0 5 false).available + rtx.amount.getD 0,
              held := (Account.mk 1 5 0 5 false).held - rtx.amount.getD 0 },
           some { rtx with state := TransactionState.Open })) ∨
       (TransactionType.Dispute = TransactionType.Chargeback ∧
        rtx.state = TransactionState.ActiveDispute ∧
        (Account.mk 1 5 0 5 false).apply_tx
            ⟨TransactionType.Dispute, 1, 1, none, TransactionState.Open⟩
            (some ⟨TransactionType.Deposit, 1, 1, some 5, TransactionState.Open⟩) =
          ({ Account.mk 1 5 0 5 false with
              total := (Account.mk 1 5 0 5 false).total - rtx.amount.getD 0,
              held := (Account.mk 1 5 0 5 false).held - rtx.amount.getD 0,
              locked := true },
           some { rtx with state := TransactionState.ChargedBack })))) :=
  claim_C4_dispute_family_atomic (Account.mk 1 5 0 5 false)
    ⟨TransactionType.Dispute, 1, 1, none, TransactionState.Open⟩
    (some ⟨TransactionType.Deposit, 1, 1, some 5, TransactionState.Open⟩)
    (Or.inl rfl)

/-- C6: for any account, disputing an open positive-amount deposit and then
resolving it restores available and held exactly to their pre-dispute values
and returns the deposit to the Open dispute state. -/
theorem claim_C6_dispute_resolve_roundtrip :
    ∀ (a : Account) (rtx dtx stx : Transaction),
      rtx._type = TransactionType.Deposit →
      rtx.state = TransactionState.Open →
      0 < rtx.amount.getD 0 →
      dtx._type = TransactionType.Dispute →
      stx._type = TransactionType.Resolve →
      ((((a.apply_tx dtx (some rtx)).1).apply_tx stx
          ((a.apply_tx dtx (some rtx)).2)).1).available = a.available ∧
      ((((a.apply_tx dtx (some rtx)).1).apply_tx stx
          ((a.apply_tx dtx (some rtx)).2)).1).held = a.held ∧
      (((a.apply_tx dtx (some rtx)).1).apply_tx stx
          ((a.apply_tx dtx (some rtx)).2)).2 = some rtx := by
  intro a rtx dtx stx hdep hst hpos hd hs
  obtain ⟨rty, rc, ri, ra, rs⟩ := rtx
  obtain ⟨dty, dc, di, da, ds⟩ := dtx
  obtain ⟨sty, sc, si, sa, ss⟩ := stx
  obtain rfl : rty = TransactionType.Deposit := hdep
  obtain rfl : rs = TransactionState.Open := hst
  obtain rfl : dty = TransactionType.Dispute := hd
  obtain rfl : sty = TransactionType.Resolve := hs
  have hpos2 : (0 : Rat) < ra.getD 0 := hpos
  have h1 : a.apply_tx ⟨TransactionType.Dispute, dc, di, da, ds⟩
      (some ⟨TransactionType.Deposit, rc, ri, ra, TransactionState.Open⟩)
      = ({ a with available := a.available - ra.getD 0, held := a.held + ra.getD 0 },
         some ⟨TransactionType.Deposit, rc, ri, ra, TransactionState.ActiveDispute⟩) := by
    simp only [Account.apply_tx, Account.is_locked_tx, Account.applyBody, Option.map_some']
    rw [if_neg (by exact Bool.false_ne_true), if_pos hpos2]
  rw [h1]
  simp only [Account.apply_tx, Account.is_locked_tx, Account.applyBody, Option.map_some']
  rw [if_neg (by exact Bool.false_ne_true), if_pos hpos2]
  refine ⟨by ring, by ring, rfl⟩

/-- C6 witness: the round trip on a concrete deposit of amount 5. -/
theorem claim_C6_dispute_resolve_roundtrip_witness :
    (((Account.mk 1 5 0 5 false).apply_tx
          ⟨TransactionType.Dispute, 1, 1, none, TransactionState.Open⟩
          (some ⟨TransactionType.Deposit, 1, 1, some 5, TransactionState.Open⟩)).1.apply_tx
        ⟨TransactionType.Resolve, 1, 1, none, TransactionState.Open⟩
        ((Account.mk 1 5 0 5 false).apply_tx
          ⟨TransactionType.Dispute, 1, 1, none, TransactionState.Open⟩
          (some ⟨TransactionType.Deposit, 1, 1, some 5, TransactionState.Open⟩)).2).1.available
      = (Account.mk 1 5 0 5 false).available ∧
    (((Account.mk 1 5 0 5 false).apply_tx
          ⟨TransactionType.Dispute, 1, 1, none, TransactionState.Open⟩
          (some ⟨TransactionType.Deposit, 1, 1, some 5, TransactionState.Open⟩)).1.apply_tx
        ⟨TransactionType.Resolve, 1, 1, none, TransactionState.Open⟩
        ((Account.mk 1 5 0 5 false).apply_tx
          ⟨TransactionType.Dispute, 1, 1, none, TransactionState.Open⟩
          (some ⟨TransactionType.Deposit, 1, 1, some 5, TransactionState.Open⟩)).2).1.held
      = (Account.mk 1 5 0 5 false).held ∧
    (((Account.mk 1 5 0 5 false).apply_tx
          ⟨TransactionType.Dispute, 1, 1, none, TransactionState.Open⟩
          (some ⟨TransactionType.Deposit, 1, 1, some 5, TransactionState.Open⟩)).1.apply_tx
        ⟨TransactionType.Resolve, 1, 1, none, TransactionState.Open⟩
        ((Account.mk 1 5 0 5 false).apply_tx
          ⟨TransactionType.Dispute, 1, 1, none, TransactionState.Open⟩
          (some ⟨TransactionType.Deposit, 1, 1, some 5, TransactionState.Open⟩)).2).2
      = some ⟨TransactionType.Deposit, 1, 1, some 5, TransactionState.Open⟩ :=
  claim_C6_dispute_resolve_roundtrip (Account.mk 1 5 0 5 false)
    ⟨TransactionType.Deposit, 1, 1, some 5, TransactionState.Open⟩
    ⟨TransactionType.Dispute, 1, 1, none, TransactionState.Open⟩
    ⟨TransactionType.Resolve, 1, 1, none, TransactionState.Open⟩
    rfl rfl (by norm_num) rfl rfl

/-- C1 (evaluated at the failing input): both a withdrawal and a later deposit
with the same TxId require a unique TxId, yet because the history retains only
deposits the run does not fail: it completes with `Except.ok`, applying the
deposit and emitting output, where the claim demands a fatal error. -/
theorem claim_C1_duplicate_withdrawal_txid_not_fatal :
    Transaction.requires_unique_tx
        ⟨TransactionType.Withdrawal, 1, 7, some (1/2), TransactionState.Open⟩ = true ∧
    Transaction.requires_unique_tx
        ⟨TransactionType.Deposit, 1, 7, some 1, TransactionState.Open⟩ = true ∧
    run [⟨TransactionType.Withdrawal, 1, 7, some (1/2), TransactionState.Open⟩,
         ⟨TransactionType.Deposit, 1, 7, some 1, TransactionState.Open⟩]
      = Except.ok ⟨[⟨1, 1, 0, 1, false⟩],
          [⟨TransactionType.Deposit, 1, 7, some 1, TransactionState.Open⟩]⟩ := by
  refine ⟨rfl, rfl, ?_⟩
  norm_num [run, runAux, runStep, ledgerLookup, ledgerSet, historyLookup, historyContains,
    historySet, writeBack, Account.applyTxMain, Account.applyBodyMain, Account.is_locked_tx,
    Account.new, Transaction.requires_unique_tx, Transaction.requires_history, List.find?,
    nat_beq_eq_decide]

/-- C2 (evaluated at the failing input): the validation function of
transaction.rs accepts a 4-fractional-digit amount and rejects a
5-fractional-digit amount, but the driver loop of main.rs never performs the
precision check: a deposit of 1.00001 is applied to the account rather than
skipped. -/
theorem claim_C2_precision_check_not_enforced_by_driver :
    TransactionD.valid_tx_data
        ⟨TransactionType.Deposit, 1, 1, some ⟨15111, 4⟩, TransactionState.Open⟩ = true ∧
    TransactionD.valid_tx_data
        ⟨TransactionType.Deposit, 1, 1, some ⟨100001, 5⟩, TransactionState.Open⟩ = false ∧
    run [⟨TransactionType.Deposit, 1, 1, some (100001/100000), TransactionState.Open⟩]
      = Except.ok ⟨[⟨1, 100001/100000, 0, 100001/100000, false⟩],
          [⟨TransactionType.Deposit, 1, 1, some (100001/100000), TransactionState.Open⟩]⟩ := by
  refine ⟨by decide, by decide, ?_⟩
  norm_num [run, runAux, runStep, ledgerLookup, ledgerSet, historyLookup, historyContains,
    historySet, writeBack, Account.applyTxMain, Account.applyBodyMain, Account.is_locked_tx,
    Account.new, Transaction.requires_unique_tx, Transaction.requires_history, List.find?,
    nat_beq_eq_decide]
